import Mathlib

/-!
Verification development for gScorer-v2 (single-file Streamlit app,
`gScorer-v2.py`): the pairing, recovery and persistence logic.

Shallow embedding notes:
* Filenames and subject ids are `String`s.  Python string primitives
  (`split`, `strip`, `lower`, `endswith`, lexicographic comparison) are
  re-implemented over `List Char` because they must be executable by the
  kernel; each mirrors the CPython semantics on the character level
  (ASCII case folding suffices for the extension check, and the
  whitespace set is the common `' '/'\t'/'\n'/'\r'` one).
* `os.listdir` results are passed in as a `List String` of directory
  entries; `os.listdir` never repeats a name, so the Python `set(...)`
  used for membership tests is modelled by the list itself.
* Python's `sorted` is a stable sort on the key; it is modelled with
  `List.insertionSort` (also stable).  Ties in `ts_key` are already
  nondeterministic in the source (the candidate list is a `set`), and no
  claim depends on tie order.
* Streamlit session state is an explicit `SessionSt` record; UI and I/O
  side effects (cache writes, export writes, e-mails) are recorded as an
  event list so that "how many times did X happen" is provable.
-/

namespace GScorer

/-- One element of the pair order: the `(subject_id, ref, final)` tuples
built by `get_subject_pairs` / `load_global_subject_pair_order`. -/
structure SubjectPair where
  subject_id : String
  ref : String
  final : String
deriving DecidableEq, Repr, Inhabited

/-- One row of the per-author score CSV, as appended by `handle_score`:
`{subject_id, ref_image, final_image, score, timestamp}`. -/
structure ScoreRecord where
  subject_id : String
  ref_image : String
  final_image : String
  score : Nat
  timestamp : String
deriving DecidableEq, Repr, Inhabited

/-! ### Character-level string primitives (CPython semantics) -/

/-- Lexicographic (code-point) order on character lists: the order Python
uses to compare `str` values. -/
def chars_le : List Char → List Char → Bool
  | [], _ => true
  | _ :: _, [] => false
  | a :: as, b :: bs =>
    if a.toNat < b.toNat then true
    else if b.toNat < a.toNat then false
    else chars_le as bs

/-- Python `s <= t` on strings. -/
def str_le (a b : String) : Bool := chars_le a.data b.data

/-- Python `sep.split` behaviour for a one-character separator. -/
def split_on_char (sep : Char) : List Char → List (List Char)
  | [] => [[]]
  | c :: rest =>
    if c = sep then [] :: split_on_char sep rest
    else
      match split_on_char sep rest with
      | [] => [[c]]
      | l :: ls => (c :: l) :: ls

/-- ASCII case folding of one character (Python `str.lower` restricted to
ASCII, which is all the extension comparison needs). -/
def lower_char (c : Char) : Char :=
  if 65 ≤ c.toNat ∧ c.toNat ≤ 90 then Char.ofNat (c.toNat + 32) else c

/-- Python `f.lower()`. -/
def str_lower (s : String) : String := String.mk (s.data.map lower_char)

/-- Python `s.endswith(suffix)`. -/
def str_ends_with (s suffix : String) : Bool := List.isSuffixOf suffix.data s.data

/-- Python `s.strip()` (common whitespace set). -/
def py_strip (s : String) : String :=
  String.mk (((s.data.dropWhile Char.isWhitespace).reverse.dropWhile Char.isWhitespace).reverse)

/-! ### Pair resolver (`_list_dir_images`, `get_subject_pairs`) -/

/-- The extension whitelist of `_list_dir_images`. -/
def image_exts : List String := [".png", ".jpg", ".jpeg", ".bmp", ".gif"]

/-- `f.lower().endswith(exts)` from `_list_dir_images`. -/
def has_image_ext (f : String) : Bool :=
  image_exts.any (fun e => str_ends_with (str_lower f) e)

/-- `_list_dir_images`: keep the directory entries whose name ends
(case-insensitively) in one of the image extensions.  An unreadable
directory is modelled by the caller passing `[]`. -/
def _list_dir_images (dir_entries : List String) : List String :=
  dir_entries.filter has_image_ext

/-- `f.split("_")[0].strip()`: the subject-id segment of a filename. -/
def subject_of (f : String) : String :=
  py_strip (String.mk ((split_on_char '_' f.data).headD []))

/-- `ts_key` from `get_subject_pairs`: the timestamp sort key of a
filename (the portion after the first underscore). -/
def ts_key (fname : String) : String :=
  let parts := (split_on_char '_' fname.data).map String.mk
  if 3 ≤ parts.length then parts.getD 1 "" ++ "_" ++ parts.getD 2 ""
  else if 1 < parts.length then parts.getD 1 "" else fname

/-- Sort order used for `sorted(flist, key=ts_key)`. -/
def ts_le (a b : String) : Prop := str_le (ts_key a) (ts_key b) = true

instance : DecidableRel ts_le := fun a b =>
  inferInstanceAs (Decidable (str_le (ts_key a) (ts_key b) = true))

/-- Sort order used for `pairs.sort(key=lambda x: x[0])`. -/
def pair_le (a b : SubjectPair) : Prop := str_le a.subject_id b.subject_id = true

instance : DecidableRel pair_le := fun a b =>
  inferInstanceAs (Decidable (str_le a.subject_id b.subject_id = true))

/-- The files of one subject among the considered filenames
(`by_subject[subject]`; grouping by dict = filtering the file list). -/
def subject_files (files : List String) (subject : String) : List String :=
  files.filter (fun f => subject_of f == subject)

/-- The body of the inference loop of `get_subject_pairs` for one
subject: `None` when the subject is discarded. -/
def infer_one (files : List String) (subject : String) : Option SubjectPair :=
  let flist := subject_files files subject
  if flist.length < 2 then none
  else
    let sorted_list := List.insertionSort ts_le flist
    let ref_file := sorted_list.headD ""
    let final_file := sorted_list.getLastD ""
    if ref_file ≠ final_file then some ⟨subject, ref_file, final_file⟩ else none

/-- The filename-inference fallback of `get_subject_pairs` (lines
190-218): group by leading segment, pick earliest/latest per subject,
sort by subject id. -/
def infer_pairs (all_imgs : List String) : List SubjectPair :=
  let files := all_imgs.filter (fun f => f.data.contains '_')
  List.insertionSort pair_le (((files.map subject_of).dedup).filterMap (infer_one files))

/-- The filter applied to a loaded global order: keep entries whose two
filenames both exist in the image directory. -/
def filtered_global_order (ordered : List SubjectPair) (all_imgs : List String) :
    List SubjectPair :=
  ordered.filter (fun t => all_imgs.contains t.ref && all_imgs.contains t.final)

/-- `get_subject_pairs` (without `shuffle`, which defaults to `False`
and is never passed in the app): `ordered` is the parsed global order
file (`load_global_subject_pair_order` returns a non-empty list or
`None`; an empty `some []` behaves like `None`, matching Python
falsiness of `[]`), `dir_entries` the raw directory listing. -/
def get_subject_pairs (ordered : Option (List SubjectPair)) (dir_entries : List String) :
    List SubjectPair :=
  let all_imgs := _list_dir_images dir_entries
  match ordered with
  | some l =>
    let filtered := filtered_global_order l all_imgs
    if filtered.isEmpty then infer_pairs all_imgs else filtered
  | none => infer_pairs all_imgs

/-! ### Session state and the progress realigner -/

/-- The Streamlit session-state fields the scoring logic touches:
`scores`, `image_order`, `img_idx` (the cursor), `scored_count`, and the
`_warned_score_mismatch` one-shot flag. -/
structure SessionSt where
  scores : List ScoreRecord
  image_order : List SubjectPair
  img_idx : Nat
  scored_count : Nat
  warned_mismatch : Bool
deriving DecidableEq, Repr

/-- `scored_ids = {r.get("subject_id") for r in scored_rows if r.get("subject_id")}`:
the Python truthiness test drops empty subject ids. -/
def scored_subject_ids (rows : List ScoreRecord) : List String :=
  (rows.filter (fun r => r.subject_id != "")).map (fun r => r.subject_id)

/-- The `first_unscored` loop of `_realign_img_idx_to_scores`: index of
the first order entry whose subject id is not in `scored_ids`, or
`len(order)` when every entry is covered (`List.findIdx` returns the
length exactly when no element matches). -/
def first_unscored_idx (order : List SubjectPair) (rows : List ScoreRecord) : Nat :=
  order.findIdx (fun p => !((scored_subject_ids rows).contains p.subject_id))

/-- `recognized = sum(1 for sid, _r, _f in order if sid in scored_ids)`. -/
def recognized_count (order : List SubjectPair) (rows : List ScoreRecord) : Nat :=
  (order.filter (fun p => (scored_subject_ids rows).contains p.subject_id)).length

/-- `order = st.session_state.get("image_order") or get_subject_pairs()`:
an empty (falsy) stored order falls back to a fresh resolver call, whose
result is passed in as `fallback`. -/
def effective_order (fallback : List SubjectPair) (s : SessionSt) : List SubjectPair :=
  if s.image_order.isEmpty then fallback else s.image_order

/-- `_realign_img_idx_to_scores`, returned together with the list of
warnings it displays (`st.warning` calls). -/
def _realign_img_idx_to_scores (fallback : List SubjectPair) (s : SessionSt) :
    SessionSt × List String :=
  let order := effective_order fallback s
  let first_unscored := first_unscored_idx order s.scores
  let recognized := recognized_count order s.scores
  let s' := { s with scored_count := recognized, img_idx := first_unscored }
  let mismatch : Int := (s.scores.length : Int) - (recognized : Int)
  if 3 < mismatch ∧ s.warned_mismatch = false then
    ({ s' with warned_mismatch := true },
     ["Recovered score rows did not all match current subject IDs."])
  else (s', [])

/-! ### Scoring and completion, with observable side effects -/

/-- Observable side effects of the scoring loop: working-cache rewrites,
e-mails (`send_email_with_attachment` calls), export-CSV writes and
cache removals. -/
inductive Ev where
  | cacheWrite (author : String) (rows : List ScoreRecord)
  | email (subject body : String)
  | exportCsv (path : String) (rows : List ScoreRecord)
  | cacheRemove (author : String)
deriving DecidableEq, Repr

def is_email_ev : Ev → Bool
  | .email _ _ => true
  | _ => false

def is_export_ev : Ev → Bool
  | .exportCsv _ _ => true
  | _ => false

/-- `handle_score`: append the record, realign, rewrite the cache, and
e-mail a progress update when `img_idx % 20 == 0`.  `timestamp` stands
for `datetime.now().strftime(...)`; the e-mail body is the exact
f-string of the source. -/
def handle_score (fallback : List SubjectPair) (score_value : Nat)
    (subject_id ref_file final_file : String) (total_pairs : Nat)
    (author_name timestamp : String) (s : SessionSt) :
    SessionSt × List String × List Ev :=
  let s1 := { s with scores := s.scores ++ [⟨subject_id, ref_file, final_file, score_value, timestamp⟩] }
  let res := _realign_img_idx_to_scores fallback s1
  let s2 := res.1
  let evs := [Ev.cacheWrite author_name s2.scores]
  let evs :=
    if s2.img_idx % 20 = 0 then
      evs ++ [Ev.email ("gScorer Progress Update for " ++ author_name)
        (author_name ++ " has scored " ++ toString s2.img_idx ++ " out of "
          ++ toString total_pairs ++ " subject pairs.")]
    else evs
  (s2, res.2, evs)

/-- The `else` branch of the main scoring loop (lines 508-529), executed
on every Streamlit rerun while `img_idx >= len(image_files)`: write a
freshly timestamped export CSV, remove the cache if it still exists,
and e-mail the export.  No flag guards any of it. -/
def completed_branch (author_name timestamp_str : String) (cache_exists : Bool)
    (s : SessionSt) : List Ev :=
  let csv_path := author_name ++ "_subject_scores_" ++ timestamp_str ++ ".csv"
  Ev.exportCsv csv_path s.scores
    :: ((if cache_exists then [Ev.cacheRemove author_name] else [])
      ++ [Ev.email ("gScorer Subject Pair Output Submitted by " ++ author_name)
            ("Final subject pair scores for " ++ author_name ++ " are attached.")])

/-! ### Session cache (CSV persistence)

`handle_score` persists with `pd.DataFrame(scores).to_csv(path, index=False)`
and `load_session_cache` reads with `pd.read_csv`.  pandas is an external
library; it is modelled at the level of its observable file format:
RFC-4180-style minimal quoting (a field is quoted when it contains the
delimiter, the quote char or a line break; quotes are doubled), rows
separated and terminated by `'\n'`, a fixed header row, and integer
rendering of the `score` column.  The model parser is slightly stricter
than pandas (it insists on the written header and on exactly five fields
per row); both fail only into `none`, the path `load_session_cache`
maps to `None`. -/

def needs_quoting (cs : List Char) : Bool :=
  cs.any (fun c => c == ',' || c == '\"' || c == '\n' || c == '\r')

def escape_quotes : List Char → List Char
  | [] => []
  | c :: rest => if c = '\"' then '\"' :: '\"' :: escape_quotes rest else c :: escape_quotes rest

def render_field (s : String) : List Char :=
  if needs_quoting s.data then '\"' :: (escape_quotes s.data ++ ['\"']) else s.data

/-- Join already-rendered fields with the `,` delimiter. -/
def render_fields : List (List Char) → List Char
  | [] => []
  | [f] => f
  | f :: fs => f ++ ',' :: render_fields fs

/-- One CSV row of the cache, in the DataFrame's column order. -/
def render_row (r : ScoreRecord) : List Char :=
  render_fields [render_field r.subject_id, render_field r.ref_image,
    render_field r.final_image, (Nat.repr r.score).data, render_field r.timestamp]

def csv_header : List Char := "subject_id,ref_image,final_image,score,timestamp".data

def join_lines : List (List Char) → List Char
  | [] => []
  | [l] => l
  | l :: ls => l ++ '\n' :: join_lines ls

/-- The cache file contents written by `df_tmp.to_csv(cache_path, index=False)`. -/
def write_cache (rows : List ScoreRecord) : String :=
  String.mk (join_lines (csv_header :: rows.map render_row) ++ ['\n'])

def split_lines : List Char → List (List Char)
  | [] => [[]]
  | c :: rest =>
    if c = '\n' then [] :: split_lines rest
    else
      match split_lines rest with
      | [] => [[c]]
      | l :: ls => (c :: l) :: ls

/-- Parse the remainder of a quoted field (the opening quote already
consumed): returns the field body and the characters after the closing
quote. -/
def parse_quoted : List Char → Option (List Char × List Char)
  | [] => none
  | [c] => if c = '\"' then some ([], []) else none
  | c :: c2 :: rest2 =>
    if c = '\"' then
      if c2 = '\"' then (parse_quoted rest2).map (fun pr => ('\"' :: pr.1, pr.2))
      else some ([], c2 :: rest2)
    else (parse_quoted (c2 :: rest2)).map (fun pr => (c :: pr.1, pr.2))

theorem parse_quoted_one_quote : parse_quoted ['\"'] = some ([], []) := rfl

theorem parse_quoted_escaped (rest2 : List Char) :
    parse_quoted ('\"' :: '\"' :: rest2)
      = (parse_quoted rest2).map (fun pr => ('\"' :: pr.1, pr.2)) := by
  simp [parse_quoted]

theorem parse_quoted_close (c2 : Char) (r2 : List Char) (hc2 : c2 ≠ '\"') :
    parse_quoted ('\"' :: c2 :: r2) = some ([], c2 :: r2) := by
  simp [parse_quoted, hc2]

theorem parse_quoted_other (c : Char) (rest : List Char) (hc : c ≠ '\"') :
    parse_quoted (c :: rest) = (parse_quoted rest).map (fun pr => (c :: pr.1, pr.2)) := by
  cases rest with
  | nil => simp [parse_quoted, hc]
  | cons c2 r2 => simp [parse_quoted, hc]

/-- Parse an unquoted field: everything up to the next delimiter.
The second component is `some rest` when a delimiter was consumed. -/
def parse_unquoted : List Char → List Char × Option (List Char)
  | [] => ([], none)
  | c :: rest =>
    if c = ',' then ([], some rest)
    else
      let pr := parse_unquoted rest
      (c :: pr.1, pr.2)

theorem parse_quoted_length_aux : ∀ (n : Nat) (cs : List Char), cs.length ≤ n →
    ∀ f r, parse_quoted cs = some (f, r) → r.length < cs.length := by
  intro n
  induction n with
  | zero =>
    intro cs hle f r h
    cases cs with
    | nil => simp [parse_quoted] at h
    | cons c rest => simp at hle
  | succ n ih =>
    intro cs hle f r h
    cases cs with
    | nil => simp [parse_quoted] at h
    | cons c rest =>
      by_cases hc : c = '\"'
      · subst hc
        cases rest with
        | nil =>
          rw [parse_quoted_one_quote] at h
          simp only [Option.some.injEq, Prod.mk.injEq] at h
          obtain ⟨-, rfl⟩ := h
          simp
        | cons c2 rest2 =>
          by_cases hc2 : c2 = '\"'
          · subst hc2
            rw [parse_quoted_escaped] at h
            simp only [Option.map_eq_some', Prod.mk.injEq] at h
            obtain ⟨⟨f', r'⟩, hpr, -, rfl⟩ := h
            have hlen : rest2.length ≤ n := by simp at hle; omega
            have := ih rest2 hlen f' r' hpr
            simp; omega
          · rw [parse_quoted_close c2 rest2 hc2] at h
            simp only [Option.some.injEq, Prod.mk.injEq] at h
            obtain ⟨-, rfl⟩ := h
            simp
      · rw [parse_quoted_other c rest hc] at h
        simp only [Option.map_eq_some', Prod.mk.injEq] at h
        obtain ⟨⟨f', r'⟩, hpr, -, rfl⟩ := h
        have hlen : rest.length ≤ n := by simp at hle; omega
        have := ih rest hlen f' r' hpr
        simp; omega

theorem parse_quoted_length (cs f r : List Char) (h : parse_quoted cs = some (f, r)) :
    r.length < cs.length :=
  parse_quoted_length_aux cs.length cs le_rfl f r h

theorem parse_unquoted_length : ∀ (cs f r : List Char),
    parse_unquoted cs = (f, some r) → r.length < cs.length := by
  intro cs
  induction cs with
  | nil => intro f r h; simp [parse_unquoted] at h
  | cons c rest ih =>
    intro f r h
    simp only [parse_unquoted] at h
    split at h
    · simp only [Prod.mk.injEq, Option.some.injEq] at h
      obtain ⟨-, rfl⟩ := h
      simp
    · simp only [Prod.mk.injEq] at h
      obtain ⟨-, h2⟩ := h
      have hr : parse_unquoted rest = ((parse_unquoted rest).1, some r) := by
        rw [← h2]
      have := ih (parse_unquoted rest).1 r hr
      simp; omega

/-- Split one CSV line into its fields (RFC-4180 minimal quoting).
`fuel` bounds the number of fields; it only makes the recursion
structural (hence kernel-executable) and `parse_fields` always supplies
enough (`parse_quoted_length`/`parse_unquoted_length` show every
recursive step consumes at least one character). -/
def parse_fields_fuel : Nat → List Char → Option (List String)
  | 0, _ => none
  | fuel + 1, cs =>
    match cs with
    | '\"' :: rest =>
      match parse_quoted rest with
      | none => none
      | some (f, []) => some [String.mk f]
      | some (f, ',' :: r2) => (parse_fields_fuel fuel r2).map (fun fs => String.mk f :: fs)
      | some (_, _ :: _) => none
    | _ =>
      match parse_unquoted cs with
      | (f, none) => some [String.mk f]
      | (f, some r2) => (parse_fields_fuel fuel r2).map (fun fs => String.mk f :: fs)

/-- Split one CSV line into its fields. -/
def parse_fields (cs : List Char) : Option (List String) :=
  parse_fields_fuel (cs.length + 1) cs

/-- pandas' default NA sentinels (`pd.read_csv` converts a field equal
to any of these — notably the empty string — to NaN). -/
def na_sentinels : List String :=
  ["", "#N/A", "#N/A N/A", "#NA", "-1.#IND", "-1.#QNAN", "-NaN", "-nan",
   "1.#IND", "1.#QNAN", "<NA>", "N/A", "NA", "NULL", "NaN", "None",
   "n/a", "nan", "null"]

/-- One loaded cell: `none` models NaN.  Numeric dtype inference (the
`score` column loading as int) is a formatting matter; the model keeps
the decimal string. -/
def parse_cell (s : String) : Option String :=
  if s ∈ na_sentinels then none else some s

/-- What `pd.read_csv` does to one data row against a header of `ncols`
columns: more fields than columns is a `ParserError` (the whole read
raises); fewer fields are padded with trailing NaNs. -/
def pad_row (ncols : Nat) (fields : List String) : Option (List (Option String)) :=
  if ncols < fields.length then none
  else some (fields.map parse_cell ++ List.replicate (ncols - fields.length) none)

def parse_table_rows (ncols : Nat) : List (List Char) → Option (List (List (Option String)))
  | [] => some []
  | l :: ls =>
    match parse_fields l with
    | none => none
    | some fs =>
      match pad_row ncols fs, parse_table_rows ncols ls with
      | some row, some rest => some (row :: rest)
      | _, _ => none

/-- The DataFrame produced by `pd.read_csv` on the cache file: the
header row names the columns (pandas accepts any first line as header),
`rows` are the data cells with `none` for NaN. -/
structure LoadedTable where
  header : List String
  rows : List (List (Option String))
deriving DecidableEq, Repr

/-- The observable behaviour of `pd.read_csv` on the cache file:
`none` models the exception path (empty input, a row wider than the
header, or malformed quoting); blank lines — including the one after
the trailing newline — are skipped (`skip_blank_lines`). -/
def read_csv_model (content : String) : Option LoadedTable :=
  let lines := (split_lines content.data).filter (fun l => !l.isEmpty)
  match lines with
  | [] => none
  | hd :: rows =>
    match parse_fields hd with
    | none => none
    | some header =>
      match parse_table_rows header.length rows with
      | none => none
      | some rs => some ⟨header, rs⟩

/-- `load_session_cache`: `file` is the cache file's contents, `none`
when the file does not exist.  The returned pair is the
`{"scores": df.to_dict("records"), "img_idx": len(scores)}` dict (the
`image_order` key is always `None` and is omitted), with the records
kept in table form; the function's `None` result is `none`. -/
def load_session_cache (file : Option String) : Option (LoadedTable × Nat) :=
  match file with
  | none => none
  | some content =>
    match read_csv_model content with
    | none => none
    | some t => some (t, t.rows.length)

/-! ### Generic list lemmas -/

theorem findIdx_congr_pred {α : Type} {l : List α} {p q : α → Bool}
    (h : ∀ x ∈ l, p x = q x) : l.findIdx p = l.findIdx q := by
  induction l with
  | nil => rfl
  | cons a t ih =>
    simp only [List.findIdx_cons, h a (List.mem_cons_self a t)]
    rw [ih (fun x hx => h x (List.mem_cons_of_mem a hx))]

theorem findIdx_getD_false {α : Type} {l : List α} {p : α → Bool} {i : Nat} (d : α)
    (h : i < l.findIdx p) : p (l.getD i d) = false := by
  induction l generalizing i with
  | nil => simp [List.findIdx, List.findIdx.go] at h
  | cons a t ih =>
    rw [List.findIdx_cons] at h
    cases hp : p a with
    | true => simp [hp] at h
    | false =>
      simp only [hp, cond_false] at h
      cases i with
      | zero => simpa using hp
      | succ j => simpa using ih (by omega)

theorem findIdx_getD_true {α : Type} {l : List α} {p : α → Bool} (d : α)
    (h : l.findIdx p < l.length) : p (l.getD (l.findIdx p) d) = true := by
  induction l with
  | nil => simp at h
  | cons a t ih =>
    rw [List.findIdx_cons] at h ⊢
    cases hp : p a with
    | true => simpa using hp
    | false =>
      simp only [hp, cond_false] at h ⊢
      simpa using ih (by simpa using h)

theorem headD_mem {α : Type} {l : List α} (d : α) (h : l ≠ []) : l.headD d ∈ l := by
  cases l with
  | nil => exact absurd rfl h
  | cons a t => simp

theorem getLastD_mem {α : Type} : ∀ {l : List α} (d : α), l ≠ [] → l.getLastD d ∈ l := by
  intro l
  induction l with
  | nil => intro d h; exact absurd rfl h
  | cons a t ih =>
    intro d _
    rw [List.getLastD_cons]
    cases ht : t with
    | nil => simp
    | cons b t2 =>
      have := ih a (by simp [ht])
      rw [ht] at this
      exact List.mem_cons_of_mem a (ht ▸ this)

theorem sorted_headD_rel {α : Type} {r : α → α → Prop} (hrefl : ∀ a, r a a)
    {l : List α} (hs : l.Sorted r) (d : α) {x : α} (hx : x ∈ l) : r (l.headD d) x := by
  cases l with
  | nil => simp at hx
  | cons a t =>
    simp only [List.headD_cons]
    rcases List.mem_cons.mp hx with rfl | hxt
    · exact hrefl x
    · exact List.rel_of_sorted_cons hs x hxt

theorem sorted_rel_getLastD {α : Type} {r : α → α → Prop} (hrefl : ∀ a, r a a) :
    ∀ {l : List α} (_ : l.Sorted r) (d : α) {x : α}, x ∈ l → r x (l.getLastD d) := by
  intro l
  induction l with
  | nil => intro _ d x hx; simp at hx
  | cons a t ih =>
    intro hs d x hx
    rw [List.getLastD_cons]
    cases t with
    | nil =>
      rcases List.mem_cons.mp hx with hxa | hxt
      · rw [hxa]; simpa using hrefl a
      · simp at hxt
    | cons b t2 =>
      rcases List.mem_cons.mp hx with hxa | hxt
      · rw [hxa]
        exact List.rel_of_sorted_cons hs _ (getLastD_mem a (by simp))
      · exact ih (List.Sorted.of_cons hs) a hxt

/-! ### Properties of the progress realigner -/

theorem realign_fst (fallback : List SubjectPair) (s : SessionSt) :
    ((_realign_img_idx_to_scores fallback s).1.img_idx
        = first_unscored_idx (effective_order fallback s) s.scores)
    ∧ ((_realign_img_idx_to_scores fallback s).1.scored_count
        = recognized_count (effective_order fallback s) s.scores)
    ∧ ((_realign_img_idx_to_scores fallback s).1.scores = s.scores)
    ∧ ((_realign_img_idx_to_scores fallback s).1.image_order = s.image_order) := by
  simp only [_realign_img_idx_to_scores]
  split <;> exact ⟨rfl, rfl, rfl, rfl⟩

/-- Spec-side notion, verbatim from the claim: a subject id "has a
corresponding record". -/
def has_record (rows : List ScoreRecord) (sid : String) : Bool :=
  rows.any (fun r => r.subject_id == sid)

/-- Spec-side cursor: "the index of the first `pair_order` entry whose
`subject_id` has no record (`len(pair_order)` if all are covered)". -/
def cursor_spec (order : List SubjectPair) (rows : List ScoreRecord) : Nat :=
  order.findIdx (fun p => !(has_record rows p.subject_id))

/-- Spec-side matched count: "the number of `pair_order` entries whose
`subject_id` appears in the records". -/
def matched_spec (order : List SubjectPair) (rows : List ScoreRecord) : Nat :=
  (order.filter (fun p => has_record rows p.subject_id)).length

/-- With no empty subject ids among the records, the code's truthiness
filter is invisible: membership in `scored_ids` coincides with the
spec's "has a record". -/
theorem scored_ids_eq_has_record (rows : List ScoreRecord)
    (h : ∀ r ∈ rows, r.subject_id ≠ "") (sid : String) :
    (scored_subject_ids rows).contains sid = has_record rows sid := by
  rw [Bool.eq_iff_iff]
  constructor
  · intro hc
    have hmem : sid ∈ scored_subject_ids rows := List.elem_iff.mp hc
    simp only [scored_subject_ids, List.mem_map, List.mem_filter] at hmem
    obtain ⟨r, ⟨hr, -⟩, hsid⟩ := hmem
    simp only [has_record, List.any_eq_true]
    exact ⟨r, hr, by simp [hsid]⟩
  · intro hr
    simp only [has_record, List.any_eq_true] at hr
    obtain ⟨r, hrmem, hbeq⟩ := hr
    have hsid : r.subject_id = sid := by simpa using hbeq
    apply List.elem_iff.mpr
    simp only [scored_subject_ids, List.mem_map, List.mem_filter]
    exact ⟨r, ⟨hrmem, by simpa using h r hrmem⟩, hsid⟩

/-- C3: for every `pair_order` and record list whose records carry
non-empty subject ids, `_realign_img_idx_to_scores` sets the cursor to
the index of the first `pair_order` entry whose `subject_id` has no
record (`len(pair_order)` when all are covered) — so every earlier entry
has a record and the entry at the cursor, if any, does not — and sets
`scored_count` to the number of `pair_order` entries whose `subject_id`
appears in the records.  (Amended from the unconditional claim: a record
whose `subject_id` is the empty string is dropped by the code's
truthiness filter, see the counterexample.) -/
theorem c3_realign_cursor_and_matched (fallback : List SubjectPair) (s : SessionSt)
    (h : ∀ r ∈ s.scores, r.subject_id ≠ "") :
    ((_realign_img_idx_to_scores fallback s).1.img_idx
        = cursor_spec (effective_order fallback s) s.scores
      ∧ (_realign_img_idx_to_scores fallback s).1.scored_count
        = matched_spec (effective_order fallback s) s.scores)
    ∧ (∀ i, i < (_realign_img_idx_to_scores fallback s).1.img_idx →
        has_record s.scores
          (((effective_order fallback s).getD i default).subject_id) = true)
    ∧ ((_realign_img_idx_to_scores fallback s).1.img_idx
          < (effective_order fallback s).length →
        has_record s.scores
          (((effective_order fallback s).getD
            ((_realign_img_idx_to_scores fallback s).1.img_idx) default).subject_id)
          = false)
    ∧ (_realign_img_idx_to_scores fallback s).1.img_idx
        ≤ (effective_order fallback s).length := by
  obtain ⟨h1, h2, -, -⟩ := realign_fst fallback s
  have hcursor : first_unscored_idx (effective_order fallback s) s.scores
      = cursor_spec (effective_order fallback s) s.scores := by
    apply findIdx_congr_pred
    intro p _
    rw [scored_ids_eq_has_record s.scores h]
  have hmatched : recognized_count (effective_order fallback s) s.scores
      = matched_spec (effective_order fallback s) s.scores := by
    unfold recognized_count matched_spec
    rw [List.filter_congr (fun p _ => scored_ids_eq_has_record s.scores h p.subject_id)]
  refine ⟨⟨h1.trans hcursor, h2.trans hmatched⟩, ?_, ?_, ?_⟩
  · intro i hi
    rw [h1, hcursor] at hi
    have := findIdx_getD_false (l := effective_order fallback s)
      (p := fun p => !(has_record s.scores p.subject_id)) default hi
    simpa using this
  · intro hlt
    rw [h1, hcursor] at hlt ⊢
    have := findIdx_getD_true (l := effective_order fallback s)
      (p := fun p => !(has_record s.scores p.subject_id)) default hlt
    simpa using this
  · rw [h1]
    exact List.findIdx_le_length _

/-- C3 witness: the spec's own resume scenario (two of five pairs
scored) evaluated concretely through the theorem. -/
theorem c3_realign_witness :
    (_realign_img_idx_to_scores []
        ⟨[⟨"A", "a1", "a2", 1, "t"⟩, ⟨"B", "b1", "b2", 2, "t"⟩],
          [⟨"A", "a1", "a2"⟩, ⟨"B", "b1", "b2"⟩, ⟨"C", "c1", "c2"⟩,
            ⟨"D", "d1", "d2"⟩, ⟨"E", "e1", "e2"⟩], 2, 0, false⟩).1.img_idx
      = cursor_spec
        (effective_order []
          ⟨[⟨"A", "a1", "a2", 1, "t"⟩, ⟨"B", "b1", "b2", 2, "t"⟩],
            [⟨"A", "a1", "a2"⟩, ⟨"B", "b1", "b2"⟩, ⟨"C", "c1", "c2"⟩,
              ⟨"D", "d1", "d2"⟩, ⟨"E", "e1", "e2"⟩], 2, 0, false⟩)
        [⟨"A", "a1", "a2", 1, "t"⟩, ⟨"B", "b1", "b2", 2, "t"⟩]
    ∧ cursor_spec
        [⟨"A", "a1", "a2"⟩, ⟨"B", "b1", "b2"⟩, ⟨"C", "c1", "c2"⟩,
          ⟨"D", "d1", "d2"⟩, ⟨"E", "e1", "e2"⟩]
        [⟨"A", "a1", "a2", 1, "t"⟩, ⟨"B", "b1", "b2", 2, "t"⟩] = 2 :=
  ⟨((c3_realign_cursor_and_matched []
      ⟨[⟨"A", "a1", "a2", 1, "t"⟩, ⟨"B", "b1", "b2", 2, "t"⟩],
        [⟨"A", "a1", "a2"⟩, ⟨"B", "b1", "b2"⟩, ⟨"C", "c1", "c2"⟩,
          ⟨"D", "d1", "d2"⟩, ⟨"E", "e1", "e2"⟩], 2, 0, false⟩
      (by decide)).1).1, by decide⟩

/-- C3 counterexample: with a (resolver-producible) empty subject id,
the pair at index 0 has a matching record, yet the code leaves the
cursor at 0 and counts 0 matches, while the claim demands cursor 1 and
matched count 1. -/
theorem c3_realign_counterexample :
    (_realign_img_idx_to_scores []
        ⟨[⟨"", "_a.png", "_b.png", 3, "t"⟩], [⟨"", "_a.png", "_b.png"⟩],
          0, 0, false⟩).1.img_idx = 0
    ∧ cursor_spec [⟨"", "_a.png", "_b.png"⟩] [⟨"", "_a.png", "_b.png", 3, "t"⟩] = 1
    ∧ (_realign_img_idx_to_scores []
        ⟨[⟨"", "_a.png", "_b.png", 3, "t"⟩], [⟨"", "_a.png", "_b.png"⟩],
          0, 0, false⟩).1.scored_count = 0
    ∧ matched_spec [⟨"", "_a.png", "_b.png"⟩] [⟨"", "_a.png", "_b.png", 3, "t"⟩] = 1
    ∧ has_record [⟨"", "_a.png", "_b.png", 3, "t"⟩]
        (([⟨"", "_a.png", "_b.png"⟩] : List SubjectPair).getD 0 default).subject_id
        = true := by decide

/-- C9: whenever the realigner finds more than 3 recovered rows that do
not match current subject ids, it emits exactly one warning and sets the
one-shot `_warned_score_mismatch` flag; once the flag is set no later
realign call warns again; and the warning branch never changes the
computed cursor or matched count. -/
theorem c9_mismatch_warning_once (fallback : List SubjectPair) (s : SessionSt) :
    ((_realign_img_idx_to_scores fallback s).2.length =
      if 3 < (s.scores.length : Int)
            - (recognized_count (effective_order fallback s) s.scores : Int)
          ∧ s.warned_mismatch = false
        then 1 else 0)
    ∧ ((_realign_img_idx_to_scores fallback s).1.img_idx
        = first_unscored_idx (effective_order fallback s) s.scores
      ∧ (_realign_img_idx_to_scores fallback s).1.scored_count
        = recognized_count (effective_order fallback s) s.scores)
    ∧ ((_realign_img_idx_to_scores fallback s).2 ≠ [] →
        (_realign_img_idx_to_scores fallback s).1.warned_mismatch = true)
    ∧ (s.warned_mismatch = true →
        (_realign_img_idx_to_scores fallback s).2 = []
        ∧ (_realign_img_idx_to_scores fallback s).1.warned_mismatch = true) := by
  refine ⟨?_, ⟨(realign_fst fallback s).1, (realign_fst fallback s).2.1⟩, ?_, ?_⟩
  · simp only [_realign_img_idx_to_scores]
    split
    next hc => simp [if_pos hc]
    next hc => simp [if_neg hc]
  · simp only [_realign_img_idx_to_scores]
    split
    · intro _; rfl
    · intro hne; exact absurd rfl hne
  · intro hw
    simp only [_realign_img_idx_to_scores]
    split
    next hc => exact absurd hw (by simp [hc.2])
    next => exact ⟨rfl, hw⟩

/-- C9 witness: five recovered rows, none matching the (empty) current
order — the first realign warns once and sets the flag; with the flag
set, realign stays silent. -/
theorem c9_mismatch_witness :
    ((_realign_img_idx_to_scores []
        ⟨[⟨"X", "a", "b", 1, "t"⟩, ⟨"X", "a", "b", 1, "t"⟩, ⟨"X", "a", "b", 1, "t"⟩,
          ⟨"X", "a", "b", 1, "t"⟩, ⟨"X", "a", "b", 1, "t"⟩], [], 0, 0, false⟩).2.length = 1)
    ∧ ((_realign_img_idx_to_scores []
        ⟨[⟨"X", "a", "b", 1, "t"⟩, ⟨"X", "a", "b", 1, "t"⟩, ⟨"X", "a", "b", 1, "t"⟩,
          ⟨"X", "a", "b", 1, "t"⟩, ⟨"X", "a", "b", 1, "t"⟩], [], 0, 0, true⟩).2 = []) := by
  constructor
  · rw [(c9_mismatch_warning_once []
      ⟨[⟨"X", "a", "b", 1, "t"⟩, ⟨"X", "a", "b", 1, "t"⟩, ⟨"X", "a", "b", 1, "t"⟩,
        ⟨"X", "a", "b", 1, "t"⟩, ⟨"X", "a", "b", 1, "t"⟩], [], 0, 0, false⟩).1]
    decide
  · exact ((c9_mismatch_warning_once []
      ⟨[⟨"X", "a", "b", 1, "t"⟩, ⟨"X", "a", "b", 1, "t"⟩, ⟨"X", "a", "b", 1, "t"⟩,
        ⟨"X", "a", "b", 1, "t"⟩, ⟨"X", "a", "b", 1, "t"⟩], [], 0, 0, true⟩).2.2.2 rfl).1

/-! ### Score submission notifications (C4) and completion (C2) -/

/-- C4 (amended): after a score submission, `handle_score` sends a
progress notification exactly when the recomputed cursor satisfies
`img_idx % 20 == 0` — for positive cursors this is the claim's
"positive multiple of 20", but the code's test also fires at cursor 0
(see the counterexample) — and submitting the 20th score sends exactly
one notification whose body text reports the cursor value 20. -/
theorem c4_progress_notification :
    (∀ (fallback : List SubjectPair) (score_value : Nat) (sid ref fin : String)
        (total : Nat) (author ts : String) (s : SessionSt),
      ((handle_score fallback score_value sid ref fin total author ts s).2.2.filter
          is_email_ev).length
        = if (handle_score fallback score_value sid ref fin total author ts s).1.img_idx % 20 = 0
          then 1 else 0)
    ∧ ((handle_score
          ((List.range 20).map (fun i =>
            ⟨"S" ++ Nat.repr i, "S" ++ Nat.repr i ++ "_a.png", "S" ++ Nat.repr i ++ "_b.png"⟩))
          4 "S19" "S19_a.png" "S19_b.png" 20 "FI" "2024-01-01 10:00:00"
          ⟨(List.range 19).map (fun i =>
              ⟨"S" ++ Nat.repr i, "S" ++ Nat.repr i ++ "_a.png",
                "S" ++ Nat.repr i ++ "_b.png", 1, "t"⟩),
            (List.range 20).map (fun i =>
              ⟨"S" ++ Nat.repr i, "S" ++ Nat.repr i ++ "_a.png",
                "S" ++ Nat.repr i ++ "_b.png"⟩),
            19, 19, false⟩).2.2.filter is_email_ev
        = [Ev.email "gScorer Progress Update for FI"
            "FI has scored 20 out of 20 subject pairs."]) := by
  constructor
  · intro fallback score_value sid ref fin total author ts s
    simp only [handle_score]
    split
    next hc => simp [is_email_ev, hc]
    next hc => simp [is_email_ev, hc]
  · decide

/-- C4 counterexample: the resolver produces the pair order
`[("", "_a.png", "_b.png")]` from underscore-led filenames; scoring that
pair leaves the recomputed cursor at 0 (the record's empty subject id is
dropped by the truthiness filter), yet `0 % 20 == 0` fires a
notification — the cursor is not a positive multiple of 20. -/
theorem c4_notification_counterexample :
    infer_pairs ["_a.png", "_b.png"] = [⟨"", "_a.png", "_b.png"⟩]
    ∧ (handle_score [⟨"", "_a.png", "_b.png"⟩] 3 "" "_a.png" "_b.png" 1 "FI" "t"
        ⟨[], [⟨"", "_a.png", "_b.png"⟩], 0, 0, false⟩).1.img_idx = 0
    ∧ ((handle_score [⟨"", "_a.png", "_b.png"⟩] 3 "" "_a.png" "_b.png" 1 "FI" "t"
        ⟨[], [⟨"", "_a.png", "_b.png"⟩], 0, 0, false⟩).2.2.filter is_email_ev).length = 1 := by
  decide

/-- C2: the `Completed` branch has no one-shot guard — every rerun of
the completed page writes another freshly-timestamped export CSV and
sends another completion e-mail.  Two consecutive reruns of the same
completed session produce two export writes and two e-mails, where the
claim (and the spec's own §4.4) demand exactly one per completed
session. -/
theorem c2_completed_rerun_reexports :
    (((completed_branch "FI" "20240101_100000" true
          ⟨[⟨"S1", "a.png", "b.png", 3, "2024-01-01 10:00:00"⟩],
            [⟨"S1", "a.png", "b.png"⟩], 1, 1, false⟩)
        ++ completed_branch "FI" "20240101_100500" false
          ⟨[⟨"S1", "a.png", "b.png", 3, "2024-01-01 10:00:00"⟩],
            [⟨"S1", "a.png", "b.png"⟩], 1, 1, false⟩).filter is_export_ev).length = 2
    ∧ (((completed_branch "FI" "20240101_100000" true
          ⟨[⟨"S1", "a.png", "b.png", 3, "2024-01-01 10:00:00"⟩],
            [⟨"S1", "a.png", "b.png"⟩], 1, 1, false⟩)
        ++ completed_branch "FI" "20240101_100500" false
          ⟨[⟨"S1", "a.png", "b.png", 3, "2024-01-01 10:00:00"⟩],
            [⟨"S1", "a.png", "b.png"⟩], 1, 1, false⟩).filter is_email_ev).length = 2
    ∧ ((completed_branch "FI" "20240101_100000" true
          ⟨[⟨"S1", "a.png", "b.png", 3, "2024-01-01 10:00:00"⟩],
            [⟨"S1", "a.png", "b.png"⟩], 1, 1, false⟩).filter is_export_ev).length = 1 := by
  decide

/-! ### Order facts for the sort relations -/

theorem chars_le_refl : ∀ a : List Char, chars_le a a = true := by
  intro a
  induction a with
  | nil => rfl
  | cons x xs ih => simp [chars_le, ih]

theorem chars_le_total : ∀ a b : List Char, chars_le a b = true ∨ chars_le b a = true := by
  intro a
  induction a with
  | nil => intro b; left; cases b <;> simp [chars_le]
  | cons x xs ih =>
    intro b
    cases b with
    | nil => right; simp [chars_le]
    | cons y ys =>
      rcases Nat.lt_trichotomy x.toNat y.toNat with h | h | h
      · left; simp [chars_le, h]
      · have hxy : ¬ x.toNat < y.toNat := by omega
        have hyx : ¬ y.toNat < x.toNat := by omega
        simpa [chars_le, hxy, hyx] using ih ys
      · right; simp [chars_le, h]

theorem chars_le_trans : ∀ a b c : List Char,
    chars_le a b = true → chars_le b c = true → chars_le a c = true := by
  intro a
  induction a with
  | nil => intro b c _ _; cases c <;> simp [chars_le]
  | cons x xs ih =>
    intro b c hab hbc
    cases b with
    | nil => simp [chars_le] at hab
    | cons y ys =>
      cases c with
      | nil => simp [chars_le] at hbc
      | cons z zs =>
        simp only [chars_le] at hab hbc ⊢
        by_cases h1 : x.toNat < y.toNat
        · by_cases h2 : y.toNat < z.toNat
          · simp [show x.toNat < z.toNat by omega]
          · by_cases h3 : z.toNat < y.toNat
            · simp [h2, h3] at hbc
            · simp [show x.toNat < z.toNat by omega]
        · by_cases h1' : y.toNat < x.toNat
          · simp [h1, h1'] at hab
          · by_cases h2 : y.toNat < z.toNat
            · simp [show x.toNat < z.toNat by omega]
            · by_cases h3 : z.toNat < y.toNat
              · simp [h2, h3] at hbc
              · simp only [h1, h1', if_false] at hab
                simp only [h2, h3, if_false] at hbc
                have hxz : ¬ x.toNat < z.toNat := by omega
                have hzx : ¬ z.toNat < x.toNat := by omega
                simp only [hxz, hzx, if_false]
                exact ih ys zs hab hbc

theorem ts_le_refl (a : String) : ts_le a a := chars_le_refl _

instance : IsTotal String ts_le := ⟨fun _a _b => chars_le_total _ _⟩

instance : IsTrans String ts_le := ⟨fun _ _ _ hab hbc => chars_le_trans _ _ _ hab hbc⟩

instance : IsTotal SubjectPair pair_le := ⟨fun _a _b => chars_le_total _ _⟩

instance : IsTrans SubjectPair pair_le := ⟨fun _ _ _ hab hbc => chars_le_trans _ _ _ hab hbc⟩

/-! ### Properties of the inference fallback -/

theorem mem_subject_files {files : List String} {s f : String} :
    f ∈ subject_files files s ↔ f ∈ files ∧ subject_of f = s := by
  simp [subject_files, List.mem_filter]

theorem infer_one_props {files : List String} {s : String} {p : SubjectPair}
    (h : infer_one files s = some p) :
    p.subject_id = s ∧ p.ref ≠ p.final
    ∧ p.ref ∈ subject_files files s ∧ p.final ∈ subject_files files s
    ∧ 2 ≤ (subject_files files s).length
    ∧ (∀ f ∈ subject_files files s, ts_le p.ref f ∧ ts_le f p.final) := by
  simp only [infer_one] at h
  split at h
  · exact absurd h (by simp)
  · next hlen =>
    split at h
    · next hne =>
      have hp : p = ⟨s, (List.insertionSort ts_le (subject_files files s)).headD "",
          (List.insertionSort ts_le (subject_files files s)).getLastD ""⟩ := by
        exact (Option.some.injEq .. ▸ h).symm
      have hperm := List.perm_insertionSort ts_le (subject_files files s)
      have hlen2 : 2 ≤ (subject_files files s).length := by omega
      have hnil : List.insertionSort ts_le (subject_files files s) ≠ [] := by
        intro hcon
        have := hperm.length_eq
        rw [hcon] at this
        simp at this
        omega
      have hsorted := List.sorted_insertionSort ts_le (subject_files files s)
      refine ⟨by rw [hp], by rw [hp]; simpa using hne, ?_, ?_, hlen2, ?_⟩
      · rw [hp]
        exact hperm.mem_iff.mp (headD_mem "" hnil)
      · rw [hp]
        exact hperm.mem_iff.mp (getLastD_mem "" hnil)
      · intro f hf
        have hfs : f ∈ List.insertionSort ts_le (subject_files files s) :=
          hperm.mem_iff.mpr hf
        constructor
        · rw [hp]
          exact sorted_headD_rel ts_le_refl hsorted "" hfs
        · rw [hp]
          exact sorted_rel_getLastD ts_le_refl hsorted "" hfs
    · exact absurd h (by simp)

theorem sid_nodup_filterMap : ∀ (l : List String), l.Nodup → ∀ files : List String,
    ((l.filterMap (infer_one files)).map SubjectPair.subject_id).Nodup := by
  intro l
  induction l with
  | nil => intro _ files; simp
  | cons s t ih =>
    intro hl files
    obtain ⟨hs, ht⟩ := List.nodup_cons.mp hl
    cases hfs : infer_one files s with
    | none => simpa [List.filterMap_cons, hfs] using ih ht files
    | some p =>
      simp only [List.filterMap_cons, hfs, List.map_cons]
      refine List.nodup_cons.mpr ⟨?_, ih ht files⟩
      intro hmem
      simp only [List.mem_map, List.mem_filterMap] at hmem
      obtain ⟨q, ⟨a, ha, hq⟩, hqs⟩ := hmem
      have h1 : q.subject_id = a := (infer_one_props hq).1
      have h2 : p.subject_id = s := (infer_one_props hfs).1
      have haseq : a = s := by rw [← h1, hqs, h2]
      exact hs (haseq ▸ ha)

theorem mem_infer_pairs {all_imgs : List String} {p : SubjectPair}
    (hp : p ∈ infer_pairs all_imgs) :
    ∃ s, infer_one (all_imgs.filter (fun f => f.data.contains '_')) s = some p := by
  simp only [infer_pairs] at hp
  have := (List.perm_insertionSort pair_le _).mem_iff.mp hp
  simp only [List.mem_filterMap] at this
  obtain ⟨s, -, hs⟩ := this
  exact ⟨s, hs⟩

theorem infer_pairs_sid_nodup (all_imgs : List String) :
    ((infer_pairs all_imgs).map SubjectPair.subject_id).Nodup := by
  simp only [infer_pairs]
  rw [((List.perm_insertionSort pair_le _).map SubjectPair.subject_id).nodup_iff]
  exact sid_nodup_filterMap _ (List.nodup_dedup _) _

theorem infer_pairs_ref_ne_final {all_imgs : List String} {p : SubjectPair}
    (hp : p ∈ infer_pairs all_imgs) : p.ref ≠ p.final := by
  obtain ⟨s, hs⟩ := mem_infer_pairs hp
  exact (infer_one_props hs).2.1

theorem infer_pairs_mem_imgs {all_imgs : List String} {p : SubjectPair}
    (hp : p ∈ infer_pairs all_imgs) : p.ref ∈ all_imgs ∧ p.final ∈ all_imgs := by
  obtain ⟨s, hs⟩ := mem_infer_pairs hp
  obtain ⟨-, -, href, hfin, -, -⟩ := infer_one_props hs
  constructor
  · exact (List.mem_filter.mp (mem_subject_files.mp href).1).1
  · exact (List.mem_filter.mp (mem_subject_files.mp hfin).1).1

/-! ### Resolver claims (C1, C5, C6, C10) -/

/-- C1 (amended): whenever the returned list comes from filename
inference — no global order, or a global order whose existence-filtered
list is empty — all entries have pairwise distinct `subject_id`s and
`early_image != late_image`.  A non-empty filtered global order is
returned verbatim and enjoys the guarantee only if the authored file
does (see the counterexample). -/
theorem c1_inference_guarantee (ordered : Option (List SubjectPair))
    (dir_entries : List String)
    (hfil : ∀ l, ordered = some l →
      filtered_global_order l (_list_dir_images dir_entries) = []) :
    ((get_subject_pairs ordered dir_entries).map SubjectPair.subject_id).Nodup
    ∧ ∀ p ∈ get_subject_pairs ordered dir_entries, p.ref ≠ p.final := by
  have hred : get_subject_pairs ordered dir_entries
      = infer_pairs (_list_dir_images dir_entries) := by
    cases ordered with
    | none => rfl
    | some l =>
      simp only [get_subject_pairs]
      rw [hfil l rfl]
      simp
  rw [hred]
  exact ⟨infer_pairs_sid_nodup _, fun p hp => infer_pairs_ref_ne_final hp⟩

/-- C1 witness: the resolver guarantee, instantiated at a global order
whose files are absent (filtered list empty) over a two-file directory. -/
theorem c1_inference_guarantee_witness :
    ((get_subject_pairs (some [⟨"S9", "x.png", "y.png"⟩])
        ["S1_20240101_0800.png", "S1_20240115_0900.png"]).map SubjectPair.subject_id).Nodup
    ∧ ∀ p ∈ get_subject_pairs (some [⟨"S9", "x.png", "y.png"⟩])
        ["S1_20240101_0800.png", "S1_20240115_0900.png"], p.ref ≠ p.final :=
  c1_inference_guarantee (some [⟨"S9", "x.png", "y.png"⟩])
    ["S1_20240101_0800.png", "S1_20240115_0900.png"]
    (by intro l hl; cases hl; decide)

/-- C1 counterexample: a global order entry whose two filenames are the
same existing file (listed twice) is returned verbatim, violating both
the uniqueness of `subject_id`s and `early_image != late_image`. -/
theorem c1_counterexample :
    get_subject_pairs (some [⟨"S1", "a.png", "a.png"⟩, ⟨"S1", "a.png", "a.png"⟩]) ["a.png"]
      = [⟨"S1", "a.png", "a.png"⟩, ⟨"S1", "a.png", "a.png"⟩]
    ∧ ¬ (((get_subject_pairs (some [⟨"S1", "a.png", "a.png"⟩, ⟨"S1", "a.png", "a.png"⟩])
          ["a.png"]).map SubjectPair.subject_id).Nodup)
    ∧ ¬ (∀ p ∈ get_subject_pairs (some [⟨"S1", "a.png", "a.png"⟩, ⟨"S1", "a.png", "a.png"⟩])
          ["a.png"], p.ref ≠ p.final) := by
  refine ⟨by decide, by decide, ?_⟩
  intro hall
  exact (hall ⟨"S1", "a.png", "a.png"⟩ (by decide)) rfl

/-- C5: with a global order supplied, the resolver keeps exactly the
entries whose two files exist in the image directory; a non-empty
filtered list is returned verbatim, an empty one falls back to filename
inference (so the result is empty only when inference is too); and on
the spec's scenario — a global order naming absent files over an
inferable directory — the fallback returns the non-empty inferred
list. -/
theorem c5_global_order_dispatch (ordered : List SubjectPair) (dir_entries : List String) :
    (filtered_global_order ordered (_list_dir_images dir_entries) ≠ [] →
      get_subject_pairs (some ordered) dir_entries
        = filtered_global_order ordered (_list_dir_images dir_entries))
    ∧ (filtered_global_order ordered (_list_dir_images dir_entries) = [] →
      get_subject_pairs (some ordered) dir_entries
        = infer_pairs (_list_dir_images dir_entries))
    ∧ (get_subject_pairs (some ordered) dir_entries = [] →
      infer_pairs (_list_dir_images dir_entries) = [])
    ∧ get_subject_pairs (some [⟨"S9", "x.png", "y.png"⟩])
        ["S1_20240101_0800.png", "S1_20240115_0900.png"]
      = [⟨"S1", "S1_20240101_0800.png", "S1_20240115_0900.png"⟩] := by
  refine ⟨?_, ?_, ?_, by decide⟩
  · intro hne
    simp only [get_subject_pairs]
    rw [if_neg (by simpa [List.isEmpty_iff] using hne)]
  · intro he
    simp only [get_subject_pairs]
    rw [if_pos (by simpa [List.isEmpty_iff] using he)]
  · intro hemp
    simp only [get_subject_pairs] at hemp
    split at hemp
    · exact hemp
    · next hfe =>
      rw [List.isEmpty_iff] at hfe
      exact absurd hemp hfe

/-- C5 witness: both dispatch directions evaluated concretely — a
global order whose files exist is returned verbatim, and one whose
files are absent falls back to inference. -/
theorem c5_global_order_dispatch_witness :
    get_subject_pairs (some [⟨"S9", "a.png", "b.png"⟩]) ["a.png", "b.png"]
      = filtered_global_order [⟨"S9", "a.png", "b.png"⟩]
          (_list_dir_images ["a.png", "b.png"])
    ∧ get_subject_pairs (some [⟨"S9", "x.png", "y.png"⟩])
        ["S1_20240101_0800.png", "S1_20240115_0900.png"]
      = infer_pairs (_list_dir_images ["S1_20240101_0800.png", "S1_20240115_0900.png"]) :=
  ⟨(c5_global_order_dispatch [⟨"S9", "a.png", "b.png"⟩] ["a.png", "b.png"]).1 (by decide),
   (c5_global_order_dispatch [⟨"S9", "x.png", "y.png"⟩]
      ["S1_20240101_0800.png", "S1_20240115_0900.png"]).2.1 (by decide)⟩

/-- C6: every inferred pair is built from filenames that contain the
separator, belong to the input, and share the pair's `subject_id` as
their leading segment; the pair's subject has at least two candidate
files; `early_image` is earliest and `late_image` latest under the
`ts_key` order among the subject's files; the result is sorted by
`subject_id`; and the spec's concrete scenario returns exactly
`(S1, S1_20240101_0800.png, S1_20240115_0900.png)`. -/
theorem c6_inference_shape :
    (∀ (all_imgs : List String) (p : SubjectPair), p ∈ infer_pairs all_imgs →
      p.ref.data.contains '_' = true ∧ p.final.data.contains '_' = true
      ∧ p.ref ∈ all_imgs ∧ p.final ∈ all_imgs
      ∧ subject_of p.ref = p.subject_id ∧ subject_of p.final = p.subject_id
      ∧ 2 ≤ (subject_files (all_imgs.filter (fun f => f.data.contains '_'))
          p.subject_id).length
      ∧ (∀ f ∈ subject_files (all_imgs.filter (fun f => f.data.contains '_'))
          p.subject_id, ts_le p.ref f ∧ ts_le f p.final))
    ∧ (∀ all_imgs : List String, (infer_pairs all_imgs).Sorted pair_le)
    ∧ infer_pairs ["S1_20240101_0800.png", "S1_20240115_0900.png", "S2_20240101_0800.png"]
        = [⟨"S1", "S1_20240101_0800.png", "S1_20240115_0900.png"⟩] := by
  refine ⟨?_, ?_, by decide⟩
  · intro all_imgs p hp
    obtain ⟨s, hs⟩ := mem_infer_pairs hp
    obtain ⟨hsid, -, href, hfin, hlen, hts⟩ := infer_one_props hs
    obtain ⟨hrmem, hrsub⟩ := mem_subject_files.mp href
    obtain ⟨hfmem, hfsub⟩ := mem_subject_files.mp hfin
    refine ⟨(List.mem_filter.mp hrmem).2, (List.mem_filter.mp hfmem).2,
      (List.mem_filter.mp hrmem).1, (List.mem_filter.mp hfmem).1,
      hsid ▸ hrsub, hsid ▸ hfsub, hsid ▸ hlen, hsid ▸ hts⟩
  · intro all_imgs
    exact List.sorted_insertionSort pair_le _

/-- C6 witness: the shape facts of the theorem evaluated on the
scenario's inferred pair. -/
theorem c6_inference_shape_witness :
    subject_of "S1_20240101_0800.png" = "S1"
    ∧ ts_le "S1_20240101_0800.png" "S1_20240115_0900.png" :=
  ⟨by decide,
   ((c6_inference_shape.1
      ["S1_20240101_0800.png", "S1_20240115_0900.png", "S2_20240101_0800.png"]
      ⟨"S1", "S1_20240101_0800.png", "S1_20240115_0900.png"⟩
      (by decide)).2.2.2.2.2.2.2 "S1_20240115_0900.png" (by decide)).1⟩

/-- C10: every pair the resolver returns — through either path — names
only files whose extension (case-insensitively) is one of
`.png/.jpg/.jpeg/.bmp/.gif`: both branches draw file names from
`_list_dir_images`. -/
theorem c10_only_image_extensions (ordered : Option (List SubjectPair))
    (dir_entries : List String) (p : SubjectPair)
    (hp : p ∈ get_subject_pairs ordered dir_entries) :
    has_image_ext p.ref = true ∧ has_image_ext p.final = true := by
  have hinf : ∀ q : SubjectPair, q ∈ infer_pairs (_list_dir_images dir_entries) →
      has_image_ext q.ref = true ∧ has_image_ext q.final = true := by
    intro q hq
    obtain ⟨h1, h2⟩ := infer_pairs_mem_imgs hq
    exact ⟨(List.mem_filter.mp h1).2, (List.mem_filter.mp h2).2⟩
  cases ordered with
  | none => exact hinf p hp
  | some l =>
    simp only [get_subject_pairs] at hp
    split at hp
    · exact hinf p hp
    · have hpf := (List.mem_filter.mp hp).2
      simp only [Bool.and_eq_true] at hpf
      constructor
      · exact (List.mem_filter.mp (List.elem_iff.mp hpf.1)).2
      · exact (List.mem_filter.mp (List.elem_iff.mp hpf.2)).2

/-- C10 witness: a `.txt` file matching the naming convention never
appears; the returned pair's files carry image extensions. -/
theorem c10_only_image_extensions_witness :
    has_image_ext
      (SubjectPair.ref ⟨"S1", "S1_20240101_0800.png", "S1_20240115_0900.png"⟩) = true
    ∧ has_image_ext
      (SubjectPair.final ⟨"S1", "S1_20240101_0800.png", "S1_20240115_0900.png"⟩) = true :=
  c10_only_image_extensions none
    ["S1_20240101_0800.txt", "S1_20240101_0800.png", "S1_20240115_0900.png"]
    ⟨"S1", "S1_20240101_0800.png", "S1_20240115_0900.png"⟩ (by decide)

/-! ### Cache round-trip lemmas (C7) -/

theorem string_mk_data (s : String) : String.mk s.data = s := rfl

theorem parse_quoted_escape : ∀ (f rest : List Char), rest.head? ≠ some '\"' →
    parse_quoted (escape_quotes f ++ '\"' :: rest) = some (f, rest) := by
  intro f
  induction f with
  | nil =>
    intro rest h
    simp only [escape_quotes, List.nil_append]
    cases rest with
    | nil => exact parse_quoted_one_quote
    | cons c2 r2 =>
      have hc2 : c2 ≠ '\"' := fun he => h (by simp [he])
      exact parse_quoted_close c2 r2 hc2
  | cons c f' ih =>
    intro rest h
    by_cases hc : c = '\"'
    · subst hc
      have he : escape_quotes ('\"' :: f') = '\"' :: '\"' :: escape_quotes f' := by
        simp [escape_quotes]
      rw [he]
      simp only [List.cons_append]
      rw [parse_quoted_escaped, ih rest h]
      rfl
    · simp only [escape_quotes, if_neg hc, List.cons_append]
      rw [parse_quoted_other c _ hc, ih rest h]
      rfl

theorem parse_unquoted_no_comma : ∀ (f : List Char), ',' ∉ f →
    parse_unquoted f = (f, none)
    ∧ ∀ rest, parse_unquoted (f ++ ',' :: rest) = (f, some rest) := by
  intro f
  induction f with
  | nil =>
    intro _
    refine ⟨rfl, fun rest => ?_⟩
    simp [parse_unquoted]
  | cons c f' ih =>
    intro h
    have hc : c ≠ ',' := fun he => h (he ▸ List.mem_cons_self c f')
    have hf' : ',' ∉ f' := fun hm => h (List.mem_cons_of_mem c hm)
    constructor
    · simp [parse_unquoted, hc, (ih hf').1]
    · intro rest
      simp [parse_unquoted, hc, (ih hf').2 rest]

theorem needs_quoting_false_facts {cs : List Char} (h : needs_quoting cs = false) :
    ',' ∉ cs ∧ '\"' ∉ cs := by
  simp only [needs_quoting, List.any_eq_false] at h
  constructor <;> intro hm <;> have := h _ hm <;> simp at this

theorem mem_escape_quotes {c : Char} (hc : c ≠ '\"') :
    ∀ {l : List Char}, c ∈ escape_quotes l ↔ c ∈ l := by
  intro l
  induction l with
  | nil => simp [escape_quotes]
  | cons d t ih =>
    by_cases hd : d = '\"'
    · simp [escape_quotes, hd, ih, hc]
    · simp [escape_quotes, hd, ih]

theorem not_newline_render_field {f : String} (h : '\n' ∉ f.data) :
    '\n' ∉ render_field f := by
  unfold render_field
  split
  · intro hmem
    rcases List.mem_cons.mp hmem with he | hmem2
    · exact absurd he (by decide)
    · rcases List.mem_append.mp hmem2 with h3 | h3
      · exact h ((mem_escape_quotes (by decide)).mp h3)
      · simp at h3
  · exact h

theorem not_newline_render_fields : ∀ (gs : List (List Char)),
    (∀ g ∈ gs, '\n' ∉ g) → '\n' ∉ render_fields gs := by
  intro gs
  induction gs with
  | nil => intro _; simp [render_fields]
  | cons g gs' ih =>
    intro h
    cases gs' with
    | nil => simpa [render_fields] using h g (by simp)
    | cons g2 gs2 =>
      simp only [render_fields]
      intro hmem
      rcases List.mem_append.mp hmem with h3 | h3
      · exact h g (by simp) h3
      · rcases List.mem_cons.mp h3 with he | h4
        · exact absurd he (by decide)
        · exact ih (fun g hg => h g (List.mem_cons_of_mem _ hg)) h4

theorem render_fields_length_ge : ∀ (gs : List (List Char)),
    gs.length ≤ (render_fields gs).length + 1 := by
  intro gs
  induction gs with
  | nil => simp [render_fields]
  | cons g gs' ih =>
    cases gs' with
    | nil => simp [render_fields]
    | cons g2 gs2 =>
      simp only [render_fields, List.length_append, List.length_cons]
      simp only [List.length_cons] at ih
      omega

theorem pff_quoted_comma (m : Nat) (rest f r2 : List Char)
    (hq : parse_quoted rest = some (f, ',' :: r2)) :
    parse_fields_fuel (m + 1) ('\"' :: rest)
      = (parse_fields_fuel m r2).map (fun fs => String.mk f :: fs) := by
  simp only [parse_fields_fuel]
  rw [hq]
  rfl

theorem pff_quoted_nil (m : Nat) (rest f : List Char)
    (hq : parse_quoted rest = some (f, [])) :
    parse_fields_fuel (m + 1) ('\"' :: rest) = some [String.mk f] := by
  simp only [parse_fields_fuel]
  rw [hq]

theorem pff_unquoted_none (m : Nat) (c0 : Char) (cs0 fdata : List Char) (hc0 : c0 ≠ '\"')
    (hu : parse_unquoted (c0 :: cs0) = (fdata, none)) :
    parse_fields_fuel (m + 1) (c0 :: cs0) = some [String.mk fdata] := by
  simp only [parse_fields_fuel]
  split
  next rest heq => exact absurd (List.cons.injEq .. ▸ heq).1 hc0
  next => rw [hu]

theorem pff_unquoted_some (m : Nat) (c0 : Char) (cs0 fdata r2 : List Char) (hc0 : c0 ≠ '\"')
    (hu : parse_unquoted (c0 :: cs0) = (fdata, some r2)) :
    parse_fields_fuel (m + 1) (c0 :: cs0)
      = (parse_fields_fuel m r2).map (fun fs => String.mk fdata :: fs) := by
  simp only [parse_fields_fuel]
  split
  next rest heq => exact absurd (List.cons.injEq .. ▸ heq).1 hc0
  next => rw [hu]

theorem pff_nil (m : Nat) : parse_fields_fuel (m + 1) ([] : List Char) = some [String.mk []] := by
  simp only [parse_fields_fuel]
  rfl

/-- One unquoted-or-quoted rendered field, first in the line, parses
back to the field; covers both the terminal position (`rest = none`
encoding: the line ends after the field) and the followed-by-comma
position. -/
theorem pff_render_field_last (m : Nat) (f : String) :
    parse_fields_fuel (m + 1) (render_field f) = some [f] := by
  unfold render_field
  split
  · next hq =>
    rw [pff_quoted_nil m _ f.data (parse_quoted_escape f.data [] (by simp))]
  · next hq =>
    have hq' : needs_quoting f.data = false := by simpa using hq
    obtain ⟨hcomma, hquote⟩ := needs_quoting_false_facts hq'
    cases hfd : f.data with
    | nil =>
      rw [pff_nil m]
      rw [← string_mk_data f, hfd]
    | cons c0 cs0 =>
      have hc0 : c0 ≠ '\"' := fun he => hquote (hfd ▸ (he ▸ List.mem_cons_self c0 cs0))
      have hu : parse_unquoted (c0 :: cs0) = (c0 :: cs0, none) := by
        have := (parse_unquoted_no_comma (c0 :: cs0) (hfd ▸ hcomma)).1
        exact this
      rw [pff_unquoted_none m c0 cs0 _ hc0 hu]
      rw [← string_mk_data f, hfd]

theorem pff_render_field_comma (m : Nat) (f : String)
    (rest : List Char) (res : Option (List String)) (hres : parse_fields_fuel m rest = res) :
    parse_fields_fuel (m + 1) (render_field f ++ ',' :: rest)
      = res.map (fun fs => f :: fs) := by
  unfold render_field
  split
  · next hq =>
    have hassoc : ('\"' :: (escape_quotes f.data ++ ['\"'])) ++ ',' :: rest
        = '\"' :: (escape_quotes f.data ++ '\"' :: (',' :: rest)) := by
      simp
    rw [hassoc]
    rw [pff_quoted_comma m _ f.data rest (parse_quoted_escape f.data (',' :: rest) (by simp))]
    rw [hres, string_mk_data]
  · next hq =>
    have hq' : needs_quoting f.data = false := by simpa using hq
    obtain ⟨hcomma, hquote⟩ := needs_quoting_false_facts hq'
    cases hfd : f.data with
    | nil =>
      simp only [List.nil_append]
      have hu : parse_unquoted (',' :: rest) = ([], some rest) := by
        simp [parse_unquoted]
      rw [pff_unquoted_some m ',' rest [] rest (by decide) hu]
      rw [hres, show String.mk [] = f from hfd ▸ string_mk_data f]
    | cons c0 cs0 =>
      have hc0 : c0 ≠ '\"' := fun he => hquote (hfd ▸ (he ▸ List.mem_cons_self c0 cs0))
      have hu := (parse_unquoted_no_comma (c0 :: cs0) (hfd ▸ hcomma)).2 rest
      rw [List.cons_append] at hu ⊢
      rw [pff_unquoted_some m c0 (cs0 ++ ',' :: rest) (c0 :: cs0) rest hc0 (by
        rw [← List.cons_append] at hu
        simpa using hu)]
      rw [hres, show String.mk (c0 :: cs0) = f from hfd ▸ string_mk_data f]

theorem parse_fields_fuel_render : ∀ (fs : List String) (m : Nat), fs ≠ [] → fs.length ≤ m →
    parse_fields_fuel m (render_fields (fs.map render_field)) = some fs := by
  intro fs
  induction fs with
  | nil => intro m h _; exact absurd rfl h
  | cons f fs' ih =>
    intro m hne hlen
    obtain ⟨m', rfl⟩ : ∃ k, m = k + 1 := ⟨m - 1, by simp at hlen; omega⟩
    cases fs' with
    | nil =>
      simp only [List.map_cons, List.map_nil, render_fields]
      exact pff_render_field_last m' f
    | cons g gs =>
      have hrf : render_fields ((f :: g :: gs).map render_field)
          = render_field f ++ ',' :: render_fields ((g :: gs).map render_field) := by
        simp only [List.map_cons, render_fields]
      rw [hrf]
      have hih := ih m' (by simp) (by simp at hlen ⊢; omega)
      rw [pff_render_field_comma m' f _ _ hih]
      rfl

theorem parse_fields_render (fs : List String) (hne : fs ≠ []) :
    parse_fields (render_fields (fs.map render_field)) = some fs := by
  unfold parse_fields
  apply parse_fields_fuel_render fs _ hne
  have := render_fields_length_ge (fs.map render_field)
  simp only [List.length_map] at this
  omega

theorem nat_repr_facts : ∀ k : Nat, k ≤ 6 →
    needs_quoting (Nat.repr k).data = false ∧ '\n' ∉ (Nat.repr k).data
    ∧ parse_cell (Nat.repr k) = some (Nat.repr k) := by
  intro k hk
  interval_cases k <;> exact ⟨by decide, by decide, by decide⟩

theorem render_row_eq (r : ScoreRecord) (hsc : r.score ≤ 6) :
    render_row r = render_fields
      ([r.subject_id, r.ref_image, r.final_image, Nat.repr r.score,
        r.timestamp].map render_field) := by
  have h4 : render_field (Nat.repr r.score) = (Nat.repr r.score).data := by
    simp [render_field, (nat_repr_facts r.score hsc).1]
  simp only [render_row, List.map_cons, List.map_nil, h4]

/-- A field that survives loading intact: not one of pandas' NA
sentinels (in particular non-empty) and newline-free. -/
def good_field (s : String) : Prop := s ∉ na_sentinels ∧ '\n' ∉ s.data

instance (s : String) : Decidable (good_field s) :=
  inferInstanceAs (Decidable (s ∉ na_sentinels ∧ '\n' ∉ s.data))

/-- The column names `handle_score` writes. -/
def std_header : List String :=
  ["subject_id", "ref_image", "final_image", "score", "timestamp"]

/-- The loaded cells of one written record when every field survives. -/
def good_row (r : ScoreRecord) : List (Option String) :=
  [some r.subject_id, some r.ref_image, some r.final_image,
   some (Nat.repr r.score), some r.timestamp]

theorem parse_cell_good {s : String} (h : s ∉ na_sentinels) : parse_cell s = some s := by
  simp [parse_cell, h]

theorem parse_fields_csv_header : parse_fields csv_header = some std_header := by decide

theorem parse_row_fields (r : ScoreRecord) (hsc : r.score ≤ 6) :
    parse_fields (render_row r)
      = some [r.subject_id, r.ref_image, r.final_image, Nat.repr r.score, r.timestamp] := by
  rw [render_row_eq r hsc]
  exact parse_fields_render _ (by simp)

theorem pad_row_five (a b c d e : String) :
    pad_row 5 [a, b, c, d, e]
      = some [parse_cell a, parse_cell b, parse_cell c, parse_cell d, parse_cell e] := by
  simp [pad_row]

theorem parse_table_rows_render : ∀ (rows : List ScoreRecord),
    (∀ r ∈ rows, r.score ≤ 6 ∧ good_field r.subject_id ∧ good_field r.ref_image
      ∧ good_field r.final_image ∧ good_field r.timestamp) →
    parse_table_rows 5 (rows.map render_row) = some (rows.map good_row) := by
  intro rows
  induction rows with
  | nil => intro _; rfl
  | cons r rs ih =>
    intro h
    obtain ⟨hsc, h1, h2, h3, h4⟩ := h r (by simp)
    simp only [List.map_cons, parse_table_rows]
    rw [parse_row_fields r hsc]
    dsimp only
    rw [pad_row_five, ih (fun q hq => h q (List.mem_cons_of_mem r hq))]
    dsimp only
    rw [parse_cell_good h1.1, parse_cell_good h2.1, parse_cell_good h3.1,
      parse_cell_good h4.1, (nat_repr_facts r.score hsc).2.2]
    rfl

theorem not_newline_render_row (r : ScoreRecord) (hsc : r.score ≤ 6)
    (h1 : '\n' ∉ r.subject_id.data) (h2 : '\n' ∉ r.ref_image.data)
    (h3 : '\n' ∉ r.final_image.data) (h4 : '\n' ∉ r.timestamp.data) :
    '\n' ∉ render_row r := by
  rw [render_row_eq r hsc]
  apply not_newline_render_fields
  intro g hg
  simp only [List.map_cons, List.map_nil, List.mem_cons, List.not_mem_nil, or_false] at hg
  rcases hg with rfl | rfl | rfl | rfl | rfl
  · exact not_newline_render_field h1
  · exact not_newline_render_field h2
  · exact not_newline_render_field h3
  · exact not_newline_render_field (nat_repr_facts r.score hsc).2.1
  · exact not_newline_render_field h4

theorem split_lines_append : ∀ (a cs : List Char), '\n' ∉ a →
    split_lines (a ++ '\n' :: cs) = a :: split_lines cs := by
  intro a
  induction a with
  | nil => intro cs _; simp [split_lines]
  | cons c a' ih =>
    intro cs h
    have hc : c ≠ '\n' := fun he => h (he ▸ List.mem_cons_self c a')
    have ha' : '\n' ∉ a' := fun hm => h (List.mem_cons_of_mem c hm)
    simp only [List.cons_append, split_lines, if_neg hc, List.append_eq]
    rw [ih cs ha']

theorem split_lines_join : ∀ (ls : List (List Char)), ls ≠ [] → (∀ l ∈ ls, '\n' ∉ l) →
    split_lines (join_lines ls ++ ['\n']) = ls ++ [[]] := by
  intro ls
  induction ls with
  | nil => intro h _; exact absurd rfl h
  | cons l ls' ih =>
    intro _ h
    cases ls' with
    | nil =>
      simp only [join_lines]
      rw [show (['\n'] : List Char) = '\n' :: [] from rfl,
        split_lines_append l [] (h l (by simp))]
      rfl
    | cons l2 ls2 =>
      have hj : join_lines (l :: l2 :: ls2) = l ++ '\n' :: join_lines (l2 :: ls2) := by
        simp only [join_lines]
      rw [hj, List.append_assoc, List.cons_append,
        split_lines_append l _ (h l (by simp)),
        ih (by simp) (fun g hg => h g (List.mem_cons_of_mem l hg))]
      rfl

theorem render_row_ne_nil (r : ScoreRecord) : render_row r ≠ [] := by
  intro h
  have hlen := render_fields_length_ge [render_field r.subject_id, render_field r.ref_image,
    render_field r.final_image, (Nat.repr r.score).data, render_field r.timestamp]
  unfold render_row at h
  rw [h] at hlen
  simp at hlen

theorem filter_nonblank (ls : List (List Char)) (h : ∀ l ∈ ls, l ≠ []) :
    (ls ++ [[]]).filter (fun l => !l.isEmpty) = ls := by
  rw [List.filter_append]
  have h1 : ls.filter (fun l => !l.isEmpty) = ls :=
    List.filter_eq_self.mpr (fun a ha => by simpa [List.isEmpty_iff] using h a ha)
  have h2 : ([[]] : List (List Char)).filter (fun l => !l.isEmpty) = [] := rfl
  rw [h1, h2, List.append_nil]

/-- C7 core: reading back a written cache file recovers each record's
cells, one row per record, under the standard header. -/
theorem read_csv_write_cache (rows : List ScoreRecord)
    (hgood : ∀ r ∈ rows, r.score ≤ 6 ∧ good_field r.subject_id ∧ good_field r.ref_image
      ∧ good_field r.final_image ∧ good_field r.timestamp) :
    read_csv_model (write_cache rows) = some ⟨std_header, rows.map good_row⟩ := by
  have hlines : ∀ l ∈ csv_header :: rows.map render_row, '\n' ∉ l := by
    intro l hl
    rcases List.mem_cons.mp hl with rfl | hl2
    · decide
    · obtain ⟨r, hr, rfl⟩ := List.mem_map.mp hl2
      obtain ⟨hsc, h1, h2, h3, h4⟩ := hgood r hr
      exact not_newline_render_row r hsc h1.2 h2.2 h3.2 h4.2
  have hnb : ∀ l ∈ csv_header :: rows.map render_row, l ≠ [] := by
    intro l hl
    rcases List.mem_cons.mp hl with rfl | hl2
    · decide
    · obtain ⟨r, -, rfl⟩ := List.mem_map.mp hl2
      exact render_row_ne_nil r
  unfold read_csv_model write_cache
  rw [split_lines_join _ (by simp) hlines]
  dsimp only
  rw [filter_nonblank _ hnb]
  dsimp only
  rw [parse_fields_csv_header]
  dsimp only
  rw [show std_header.length = 5 from rfl,
    parse_table_rows_render rows hgood]

/-- C7 (amended): saving any non-empty sequence of score records
through the session cache (the full-rewrite CSV save of `handle_score`)
and loading it back through `load_session_cache` yields exactly one
loaded record per written record, with identical `subject_id`,
`ref_image`, `final_image`, `score` (as its decimal rendering — the
int-dtype inference of the loaded column is formatting) and `timestamp`
values, and the resume index `len(scores)` — provided every string
field is outside pandas' NA-sentinel set (in particular non-empty) and
newline-free, and scores are in the UI's 0–6 range.  Commas and quotes
in fields round-trip through the CSV quoting.  A field equal to `""`
(which the resolver can produce as a subject id) or to an NA sentinel
is loaded back as NaN instead of its written value — see the
counterexample — so the claim's unconditional quantification fails.
`rows ≠ []` reflects that `handle_score` saves only after appending
(an empty DataFrame would produce a column-less file that pandas
refuses to read back). -/
theorem c7_cache_round_trip (rows : List ScoreRecord) (hne : rows ≠ [])
    (hgood : ∀ r ∈ rows, r.score ≤ 6 ∧ good_field r.subject_id ∧ good_field r.ref_image
      ∧ good_field r.final_image ∧ good_field r.timestamp) :
    load_session_cache (some (write_cache rows))
      = some (⟨std_header, rows.map good_row⟩, rows.length) := by
  have _hne := hne
  unfold load_session_cache
  dsimp only
  rw [read_csv_write_cache rows hgood]
  dsimp only
  rw [show (rows.map good_row).length = rows.length from List.length_map ..]

/-- C7 witness: a two-record cache — one record with a comma and a
quote in its image names — written and read back intact. -/
theorem c7_cache_round_trip_witness :
    load_session_cache (some (write_cache
        [⟨"S1", "S1_a.png", "S1_b.png", 3, "2024-01-01 10:00:00"⟩,
         ⟨"S,2", "we\"ird,name.png", "S2_b.png", 6, "2024-01-01 10:05:00"⟩]))
      = some (⟨std_header,
          [[some "S1", some "S1_a.png", some "S1_b.png", some "3", some "2024-01-01 10:00:00"],
           [some "S,2", some "we\"ird,name.png", some "S2_b.png", some "6",
            some "2024-01-01 10:05:00"]]⟩, 2) :=
  c7_cache_round_trip
    [⟨"S1", "S1_a.png", "S1_b.png", 3, "2024-01-01 10:00:00"⟩,
     ⟨"S,2", "we\"ird,name.png", "S2_b.png", 6, "2024-01-01 10:05:00"⟩]
    (by decide) (by decide)

/-- C7 counterexample: the resolver-reachable record whose `subject_id`
is the empty string is written as an empty CSV field and loaded back as
NaN (`none`) — not as `""` — so the written and loaded `subject_id`
values differ by more than string/number formatting. -/
theorem c7_round_trip_counterexample :
    load_session_cache (some (write_cache [⟨"", "_a.png", "_b.png", 3, "t"⟩]))
      = some (⟨std_header, [[none, some "_a.png", some "_b.png", some "3", some "t"]]⟩, 1)
    ∧ (⟨"", "_a.png", "_b.png", 3, "t"⟩ : ScoreRecord).subject_id = ""
    ∧ (none : Option String) ≠ some "" := by
  decide

end GScorer
